import Mathlib

/-!
Shallow embedding of `src/service.ts` of wasm-studio-utils: the compile
request/response dispatcher, the artifact resolver, the lazy capability
loader, the engine-backed post-processing operations, and the project
deserializer, together with theorems settling the specification claims.

JavaScript asynchrony is embedded by passing network and engine behaviour
as explicit oracle functions and by counting the network fetches (and code
evaluations) an operation performs.  JavaScript exceptions are embedded as
`Except String`.
-/

set_option maxHeartbeats 1000000

namespace WasmStudio

/-- A content payload (`string | ArrayBuffer` in the source): either text
or a binary buffer of bytes. -/
inductive ContentV where
  | str (s : String)
  | buf (bytes : List Nat)
deriving DecidableEq, Repr

/-- JavaScript truthiness of a content value: the empty string is falsy;
every other string and every `ArrayBuffer` is truthy. -/
def ContentV.truthy : ContentV → Bool
  | .str s => !s.isEmpty
  | .buf _ => true

/-- Modelled from the spec: the `Language` enumeration is declared in the
repository's `compilerServices` module, which is not under `src/`.  Per the
spec (§4.2, §9) compile backends are selected by a (source, target) language
pair, the README lists C/C++ and Rust as source languages, and wasm is the
single supported target. -/
inductive Language where
  | C
  | Cpp
  | Rust
  | Wat
  | Wasm
  | X86
  | JavaScript
  | Json
  | Markdown
  | Html
deriving DecidableEq, Repr

/-- The string value of each `Language` enumeration member (the TypeScript
enum is string-valued; used when a language is spliced into a message). -/
def Language.toStr : Language → String
  | .C => "c"
  | .Cpp => "cpp"
  | .Rust => "rust"
  | .Wat => "wat"
  | .Wasm => "wasm"
  | .X86 => "x86"
  | .JavaScript => "javascript"
  | .Json => "json"
  | .Markdown => "markdown"
  | .Html => "html"

/-- One entry of `CompileResult.items`: `{ content?: string | binary }`;
the `content` field may be absent. -/
structure CompileItem where
  content : Option ContentV
deriving DecidableEq, Repr

/-- The backend's compile response: `{ success, console, items }`, with
`items` a mapping from output name to an item (embedded as an association
list in the object's entry order). -/
structure CompileResult where
  success : Bool
  console : String
  items : List (String × CompileItem)
deriving DecidableEq, Repr

/-- A source file as the compile path sees it: `getPath()` and `getData()`
of the `File` collaborator. -/
structure SrcFile where
  path : String
  data : ContentV
deriving DecidableEq, Repr

/-- The compile request envelope built by `compileFiles`: a mapping from
file path to content, plus the options string. -/
structure CompileInput where
  files : List (String × ContentV)
  options : String
deriving DecidableEq, Repr

/-- The request envelope construction of `compileFiles`
(`files.reduce((acc, f) => { acc[f.getPath()] = { content: f.getData() }; ... })`). -/
def mkCompileInput (files : List SrcFile) (options : String) : CompileInput :=
  { files := files.map (fun f => (f.path, f.data)), options := options }

/-- Modelled from the spec: the supported (source, target) language pairs of
`createCompilerService` (in the `compilerServices` module, not under `src/`).
The README lists C/C++ (emscripten backend) and Rust as languages and
WebAssembly as the sole compile target. -/
def supportedPairs : List (Language × Language) :=
  [(Language.C, Language.Wasm), (Language.Cpp, Language.Wasm),
   (Language.Rust, Language.Wasm)]

/-- Modelled from the spec: `createCompilerService(from, to)` of the
`compilerServices` module (not under `src/`).  Per spec §9 backend selection
is a pure lookup from the (source, target) pair to a connection descriptor;
an unsupported pair fails before any network call. -/
def createCompilerService (fromLang toLang : Language) :
    Except String Unit :=
  if (fromLang, toLang) ∈ supportedPairs then
    Except.ok ()
  else
    Except.error ("Invalid language pair " ++ fromLang.toStr ++ " -> " ++ toLang.toStr)

/-- The output-collection loop of `compileFiles`: walk `result.items` in
order and keep `outputFiles[name] = content` exactly when `content` is
truthy (`if (content)` — an absent or falsy content is skipped). -/
def collectOutputFiles (items : List (String × CompileItem)) :
    List (String × ContentV) :=
  items.foldl
    (fun acc p =>
      match p.2.content with
      | some c => if c.truthy then acc ++ [(p.1, c)] else acc
      | none => acc)
    []

/-- `Service.compileFiles`: resolve a compiler service for the language
pair, send the request envelope (`backend` is the network oracle; the
second component counts network calls), throw `result.console` when the
backend reports failure, and otherwise collect the truthy output items. -/
def compileFiles (backend : CompileInput → CompileResult)
    (files : List SrcFile) (fromLang toLang : Language) (options : String) :
    Except String (List (String × ContentV)) × Nat :=
  match createCompilerService fromLang toLang with
  | .error e => (Except.error e, 0)
  | .ok _ =>
    let result := backend (mkCompileInput files options)
    if !result.success then
      (Except.error result.console, 1)
    else
      (Except.ok (collectOutputFiles result.items), 1)

/-- First-match lookup in an output mapping (`result[name]` on the object
built by `collectOutputFiles`, whose keys are unique in its entry order). -/
def lookupName (m : List (String × ContentV)) (key : String) :
    Option ContentV :=
  match m with
  | [] => none
  | p :: rest => if p.1 = key then some p.2 else lookupName rest key

/-- The resolved artifacts of `compileFileWithBindings`: the `wasm` field is
always written (possibly with an absent value) and `wasmBindgenJs` is added
only when its entry is truthy. -/
structure BindingsOutput where
  wasm : Option ContentV
  wasmBindgenJs : Option ContentV
deriving DecidableEq, Repr

/-- The fixed conventional primary output filename. -/
def expectedOutputFilename : String := "a.wasm"

/-- The fixed conventional companion glue-script filename. -/
def expectedWasmBindgenJsFilename : String := "wasm_bindgen.js"

/-- The artifact-resolution tail of `compileFileWithBindings`:
`output.wasm = result["a.wasm"]`, and `wasmBindgenJs` is added exactly when
`result["wasm_bindgen.js"]` is truthy. -/
def resolveBindings (result : List (String × ContentV)) : BindingsOutput :=
  { wasm := lookupName result expectedOutputFilename
    wasmBindgenJs :=
      match lookupName result expectedWasmBindgenJsFilename with
      | some c => if c.truthy then some c else none
      | none => none }

/-- `Service.compileFileWithBindings`: reject any target other than wasm
before doing anything else, then compile the single file and resolve the
primary and companion artifacts from the output mapping. -/
def compileFileWithBindings (backend : CompileInput → CompileResult)
    (file : SrcFile) (fromLang toLang : Language) (options : String) :
    Except String BindingsOutput × Nat :=
  if toLang ≠ Language.Wasm then
    (Except.error
      ("Only wasm target is supported, but \"" ++ toLang.toStr ++ "\" was found"), 0)
  else
    match compileFiles backend [file] fromLang toLang options with
    | (.error e, n) => (Except.error e, n)
    | (.ok m, n) => (Except.ok (resolveBindings m), n)

/-- `Service.compileFile`: compile with bindings and keep only the resolved
primary (`result.wasm`), discarding the companion. -/
def compileFile (backend : CompileInput → CompileResult)
    (file : SrcFile) (fromLang toLang : Language) (options : String) :
    Except String (Option ContentV) × Nat :=
  match compileFileWithBindings backend file fromLang toLang options with
  | (.error e, n) => (Except.error e, n)
  | (.ok o, n) => (Except.ok o.wasm, n)

/-- The shared process-wide namespace (`global`): an association list from
global variable name to an opaque bound value (engine handles are embedded
as opaque numeric identifiers).  An assignment pushes in front, so lookup
finds the most recent binding. -/
structure GlobalState where
  globals : List (String × Nat)
deriving DecidableEq, Repr

/-- `global[name]` read: `none` plays the role of `undefined`. -/
def getGlobal (g : GlobalState) (name : String) : Option Nat :=
  lookupGlobals g.globals name
where
  /-- First-match lookup in the bindings list. -/
  lookupGlobals : List (String × Nat) → String → Option Nat
  | [], _ => none
  | p :: rest, name => if p.1 = name then some p.2 else lookupGlobals rest name

/-- `global[name] = v` write. -/
def setGlobal (g : GlobalState) (name : String) (v : Nat) : GlobalState :=
  { globals := (name, v) :: g.globals }

/-- Network fetches and code evaluations performed by an operation. -/
structure Stats where
  fetches : Nat
  evals : Nat
deriving DecidableEq, Repr

/-- The environment a capability load interacts with: the network (GET a
url, read the body text) and the JavaScript evaluator (run fetched code,
producing the values of its declared exports in order). -/
structure LoadEnv where
  fetchText : String → String
  evalCode : String → List Nat

/-- The fixed base origin of `Service.lazyLoad`. -/
def baseUrl : String := "https://webassembly.studio/"

/-- The export-name table of `Service.lazyLoad`'s `switch`: the three known
capability uris and the global names each one declares; any other uri has
no entry. -/
def lazyLoadExports (uri : String) : Option (List String) :=
  if uri = "lib/libwabt.js" then some ["wabt"]
  else if uri = "lib/showdown.min.js" then some ["showdown"]
  else if uri = "lib/binaryen.js" then some ["Binaryen"]
  else none

/-- `Service.lazyLoad`: an unknown uri throws `"Unknow lazyLoad uri: ..."`
synchronously, before any fetch; a known uri is fetched from the base
origin (one network call), the body is evaluated (one evaluation), and each
declared export is bound into the shared namespace in order
(`exports.forEach((e, i) => global[e] = exportsObjs[i])`). -/
def lazyLoad (env : LoadEnv) (uri : String) (g : GlobalState) :
    Except String GlobalState × Stats :=
  match lazyLoadExports uri with
  | none => (Except.error ("Unknow lazyLoad uri: " ++ uri), ⟨0, 0⟩)
  | some exports =>
    let res := env.fetchText (baseUrl ++ uri)
    let exportsObjs := env.evalCode res
    (Except.ok
      ((exports.zip (List.range exports.length)).foldl
        (fun gacc p => setGlobal gacc p.1 ((exportsObjs.get? p.2).getD 0)) g),
     ⟨1, 1⟩)

/-- The opaque engine transforms the post-processors invoke once their
capability is loaded.  Each takes the loaded engine binding and collapses
the engine-internal pipeline (the spec excludes engine internals as
external collaborators): wabt's `readWasm`/`generateNames`/`applyNames`/
`toText`, wabt's `parseWat`/`resolveNames`/`validate`/`toBinary` (which can
throw a validation error), Binaryen's `readBinary` followed by `emitText`
or `emitAsmjs`, and showdown's converter `makeHtml`. -/
structure Engines where
  wabtDisassemble : Nat → ContentV → String
  wabtAssemble : Nat → String → Except String ContentV
  binaryenEmitText : Nat → ContentV → String
  binaryenEmitAsmjs : Nat → ContentV → String
  showdownMakeHtml : Nat → String → String

/-- `Service.disassembleWasm`: when the `wabt` global is undefined, lazily
load `lib/libwabt.js` first; then run the wabt disassembly pipeline on the
buffer. -/
def disassembleWasm (env : LoadEnv) (eng : Engines) (g : GlobalState)
    (buffer : ContentV) : Except String (GlobalState × String) × Stats :=
  if (getGlobal g "wabt").isSome then
    (Except.ok (g, eng.wabtDisassemble ((getGlobal g "wabt").getD 0) buffer), ⟨0, 0⟩)
  else
    match lazyLoad env "lib/libwabt.js" g with
    | (.error e, s) => (Except.error e, s)
    | (.ok g', s) =>
      (Except.ok (g', eng.wabtDisassemble ((getGlobal g' "wabt").getD 0) buffer), s)

/-- `Service.assembleWat`: when the `wabt` global is undefined, lazily load
`lib/libwabt.js` first; then parse, resolve names, validate and emit the
binary (validation failure propagates as an error). -/
def assembleWat (env : LoadEnv) (eng : Engines) (g : GlobalState)
    (wat : String) : Except String (GlobalState × ContentV) × Stats :=
  if (getGlobal g "wabt").isSome then
    match eng.wabtAssemble ((getGlobal g "wabt").getD 0) wat with
    | .error e => (Except.error e, ⟨0, 0⟩)
    | .ok b => (Except.ok (g, b), ⟨0, 0⟩)
  else
    match lazyLoad env "lib/libwabt.js" g with
    | (.error e, s) => (Except.error e, s)
    | (.ok g', s) =>
      match eng.wabtAssemble ((getGlobal g' "wabt").getD 0) wat with
      | .error e => (Except.error e, s)
      | .ok b => (Except.ok (g', b), s)

/-- `Service.compileMarkdownToHtml`: when the `showdown` global is
undefined, lazily load `lib/showdown.min.js` first; then convert the
markdown source with the showdown converter. -/
def compileMarkdownToHtml (env : LoadEnv) (eng : Engines) (g : GlobalState)
    (src : String) : Except String (GlobalState × String) × Stats :=
  if (getGlobal g "showdown").isSome then
    (Except.ok (g, eng.showdownMakeHtml ((getGlobal g "showdown").getD 0) src), ⟨0, 0⟩)
  else
    match lazyLoad env "lib/showdown.min.js" g with
    | (.error e, s) => (Except.error e, s)
    | (.ok g', s) =>
      (Except.ok (g', eng.showdownMakeHtml ((getGlobal g' "showdown").getD 0) src), s)

/-- Modelled from the spec: the `FileType` tags of the `model` module (not
under `src/`); the post-processors use the wat, wasm and javascript tags
when creating their output artifacts. -/
inductive FileType where
  | Wat
  | Wasm
  | JavaScript
  | Markdown
  | Html
  | Unknown
deriving DecidableEq, Repr, Inhabited

/-- A file node of the project tree as the post-processors see it: name,
type tag, provenance description and stored content. -/
structure TreeFile where
  name : String
  ftype : FileType
  description : String
  data : ContentV
deriving DecidableEq, Repr

instance : Inhabited TreeFile := ⟨⟨"", FileType.Unknown, "", ContentV.str ""⟩⟩

/-- In-place mutation of the i-th file of a directory (the embedding of
assigning to a field of a `File` held in its parent's child list). -/
def updateFile (files : List TreeFile) (i : Nat) (f : TreeFile → TreeFile) :
    List TreeFile :=
  match files, i with
  | [], _ => []
  | x :: xs, 0 => f x :: xs
  | x :: xs, n + 1 => x :: updateFile xs n f

/-- `parent.newFile(name, type)`: appends a fresh empty file to the
directory's children and hands back the new child's index. -/
def newFile (files : List TreeFile) (name : String) (ftype : FileType) :
    List TreeFile × Nat :=
  (files ++ [{ name := name, ftype := ftype, description := "", data := ContentV.str "" }],
   files.length)

/-- `Service.disassembleWasmWithWabt`: disassemble the file's buffer, then
create a sibling `<name>.wat` with a wabt provenance description and the
disassembly text as content.  The directory is the file's parent and `i`
the file's index in it. -/
def disassembleWasmWithWabt (env : LoadEnv) (eng : Engines) (g : GlobalState)
    (parent : List TreeFile) (i : Nat) :
    Except String (GlobalState × List TreeFile) × Stats :=
  let file := parent.getD i default
  match disassembleWasm env eng g file.data with
  | (.error e, s) => (Except.error e, s)
  | (.ok (g', result), s) =>
    let (parent1, j) := newFile parent (file.name ++ ".wat") FileType.Wat
    let parent2 := updateFile parent1 j
      (fun f => { f with description := "Disassembled from " ++ file.name ++ " using Wabt." })
    let parent3 := updateFile parent2 j (fun f => { f with data := ContentV.str result })
    (Except.ok (g', parent3), s)

/-- `Service.assembleWatWithWabt`: assemble the file's text, then create a
sibling `<name>.wasm` with a wabt provenance description and the binary as
content. -/
def assembleWatWithWabt (env : LoadEnv) (eng : Engines) (g : GlobalState)
    (parent : List TreeFile) (i : Nat) :
    Except String (GlobalState × List TreeFile) × Stats :=
  let file := parent.getD i default
  let watText := match file.data with | .str s => s | .buf _ => ""
  match assembleWat env eng g watText with
  | (.error e, s) => (Except.error e, s)
  | (.ok (g', result), s) =>
    let (parent1, j) := newFile parent (file.name ++ ".wasm") FileType.Wasm
    let parent2 := updateFile parent1 j
      (fun f => { f with description := "Assembled from " ++ file.name ++ " using Wabt." })
    let parent3 := updateFile parent2 j (fun f => { f with data := result })
    (Except.ok (g', parent3), s)

/-- `Service.disassembleWasmWithBinaryen`: when the `Binaryen` global is
undefined, lazily load `lib/binaryen.js` first; read the file's binary,
create a sibling `<name>.wat` with a Binaryen provenance description, and
store the module's emitted text in it. -/
def disassembleWasmWithBinaryen (env : LoadEnv) (eng : Engines)
    (g : GlobalState) (parent : List TreeFile) (i : Nat) :
    Except String (GlobalState × List TreeFile) × Stats :=
  let ensured : Except String GlobalState × Stats :=
    if (getGlobal g "Binaryen").isSome then (Except.ok g, ⟨0, 0⟩)
    else lazyLoad env "lib/binaryen.js" g
  match ensured with
  | (.error e, s) => (Except.error e, s)
  | (.ok g', s) =>
    let file := parent.getD i default
    let result := eng.binaryenEmitText ((getGlobal g' "Binaryen").getD 0) file.data
    let (parent1, j) := newFile parent (file.name ++ ".wat") FileType.Wat
    let parent2 := updateFile parent1 j
      (fun f => { f with description := "Disassembled from " ++ file.name ++ " using Binaryen." })
    let parent3 := updateFile parent2 j (fun f => { f with data := ContentV.str result })
    (Except.ok (g', parent3), s)

/-- `Service.convertWasmToAsmWithBinaryen`: when the `Binaryen` global is
undefined, lazily load `lib/binaryen.js` first; read the file's binary,
emit its asm.js form, create a sibling `<name>.asm.js` with a Binaryen
provenance description, and store the emitted text in it. -/
def convertWasmToAsmWithBinaryen (env : LoadEnv) (eng : Engines)
    (g : GlobalState) (parent : List TreeFile) (i : Nat) :
    Except String (GlobalState × List TreeFile) × Stats :=
  let ensured : Except String GlobalState × Stats :=
    if (getGlobal g "Binaryen").isSome then (Except.ok g, ⟨0, 0⟩)
    else lazyLoad env "lib/binaryen.js" g
  match ensured with
  | (.error e, s) => (Except.error e, s)
  | (.ok g', s) =>
    let file := parent.getD i default
    let result := eng.binaryenEmitAsmjs ((getGlobal g' "Binaryen").getD 0) file.data
    let (parent1, j) := newFile parent (file.name ++ ".asm.js") FileType.JavaScript
    let parent2 := updateFile parent1 j
      (fun f => { f with description := "Converted from " ++ file.name ++ " using Binaryen." })
    let parent3 := updateFile parent2 j (fun f => { f with data := ContentV.str result })
    (Except.ok (g', parent3), s)

/-- The `data` field of a JSON tree node as JavaScript distinguishes it:
absent (`undefined`), the literal `null`, or a string. -/
inductive JsonData where
  | absent
  | nullv
  | str (s : String)
deriving DecidableEq, Repr

/-- A JSON project-tree node (`IFile`): name, optional children, optional
type tag, optional inline data and optional description.  A node is a
directory exactly when `children` is present (an empty array counts as
present). -/
inductive IFile where
  | mk (name : String) (children : Option (List IFile)) (ftype : Option String)
      (data : JsonData) (description : Option String)
deriving Repr

/-- The node's name. -/
def IFile.name : IFile → String
  | .mk n _ _ _ _ => n

/-- The node's optional children. -/
def IFile.children : IFile → Option (List IFile)
  | .mk _ c _ _ _ => c

/-- The node's optional type tag. -/
def IFile.ftype : IFile → Option String
  | .mk _ _ t _ _ => t

/-- The node's data field. -/
def IFile.data : IFile → JsonData
  | .mk _ _ _ d _ => d

/-- The node's optional description. -/
def IFile.description : IFile → Option String
  | .mk _ _ _ _ d => d

/-- A deserialized project node: a `File` (name, type tag, description,
text content) or a `Directory` with its ordered children. -/
inductive PNode where
  | file (name : String) (ftype : Option String) (description : Option String)
      (data : String)
  | dir (name : String) (children : List PNode)
deriving Repr

mutual

/-- The `deserialize` closure of `Service.loadProject` on a single node:
a node with `children` becomes a `Directory` whose children are the
deserialized child nodes in order (the `Promise.all` fan-out reassembles by
index); a node without `children` becomes a `File` carrying the type tag
and description, whose content is the inline `data` when it is truthy, the
empty string when `data` is the literal `null`, and otherwise the text
fetched from `basePath + "/" + name`. -/
def deserialize (fetchText : String → String) : IFile → String → PNode
  | .mk name children ftype data description, basePath =>
    match children with
    | some cs => PNode.dir name (deserializeList fetchText cs (basePath ++ "/" ++ name))
    | none =>
      let content :=
        match data with
        | .str s => if !s.isEmpty then s else fetchText (basePath ++ "/" ++ name)
        | .nullv => ""
        | .absent => fetchText (basePath ++ "/" ++ name)
      PNode.file name ftype description content

/-- The `deserialize` closure on an array of sibling nodes
(`Promise.all(json.map(x => deserialize(x, basePath)))`): the results stand
at the same indices as their inputs. -/
def deserializeList (fetchText : String → String) :
    List IFile → String → List PNode
  | [], _ => []
  | x :: xs, basePath =>
    deserialize fetchText x basePath :: deserializeList fetchText xs basePath

end

/-- The top-level project JSON handed to `loadProject`: a name, a template
directory and the top-level children. -/
structure ProjectJson where
  name : String
  directory : String
  children : List IFile

/-- The `Project` collaborator as `loadProject` mutates it: a name and the
ordered top-level files. -/
structure Project where
  name : String
  files : List PNode

/-- `Service.loadProject`: set the project's name from the JSON, then
deserialize the top-level children against the `templates/<directory>` base
path and append each resulting node to the project. -/
def loadProject (fetchText : String → String) (json : ProjectJson)
    (project : Project) : Project :=
  { name := json.name
    files := project.files ++
      deserializeList fetchText json.children ("templates/" ++ json.directory) }

/-! ### Specification-side descriptions of the output mapping -/

/-- The entries of `items` whose content is present and truthy: the
specification-side description of what `compileFiles` returns. -/
def truthyEntries (items : List (String × CompileItem)) :
    List (String × ContentV) :=
  items.filterMap
    (fun p => p.2.content.bind (fun c => if c.truthy then some (p.1, c) else none))

/-- The entries of `items` whose content is present (in whatever form): the
mapping the specification claims `compileFiles` returns. -/
def presentEntries (items : List (String × CompileItem)) :
    List (String × ContentV) :=
  items.filterMap (fun p => p.2.content.map (fun c => (p.1, c)))

/-! ### Helper lemmas -/

theorem collect_foldl_eq (items : List (String × CompileItem))
    (acc : List (String × ContentV)) :
    items.foldl
      (fun acc p =>
        match p.2.content with
        | some c => if c.truthy then acc ++ [(p.1, c)] else acc
        | none => acc) acc = acc ++ truthyEntries items := by
  induction items generalizing acc with
  | nil => simp [truthyEntries]
  | cons q rest ih =>
    simp only [List.foldl_cons]
    cases hc : q.2.content with
    | none => rw [ih]; simp [truthyEntries, List.filterMap_cons, hc]
    | some c =>
      cases ht : c.truthy with
      | false => rw [ih]; simp [truthyEntries, List.filterMap_cons, hc, ht]
      | true => rw [ih]; simp [truthyEntries, List.filterMap_cons, hc, ht]

theorem collectOutputFiles_eq (items : List (String × CompileItem)) :
    collectOutputFiles items = truthyEntries items := by
  unfold collectOutputFiles
  exact collect_foldl_eq items []

theorem compileFiles_success_eq (backend : CompileInput → CompileResult)
    (files : List SrcFile) (fromLang toLang : Language) (options : String)
    (hsvc : createCompilerService fromLang toLang = Except.ok ())
    (hok : (backend (mkCompileInput files options)).success = true) :
    compileFiles backend files fromLang toLang options =
      (Except.ok (truthyEntries (backend (mkCompileInput files options)).items), 1) := by
  unfold compileFiles
  rw [hsvc]
  simp [hok, collectOutputFiles_eq]

theorem compileFiles_failure_eq (backend : CompileInput → CompileResult)
    (files : List SrcFile) (fromLang toLang : Language) (options : String)
    (hsvc : createCompilerService fromLang toLang = Except.ok ())
    (hfail : (backend (mkCompileInput files options)).success = false) :
    compileFiles backend files fromLang toLang options =
      (Except.error (backend (mkCompileInput files options)).console, 1) := by
  unfold compileFiles
  rw [hsvc]
  simp [hfail]

theorem createCompilerService_not_wasm (fromLang toLang : Language)
    (h : toLang ≠ Language.Wasm) :
    createCompilerService fromLang toLang =
      Except.error ("Invalid language pair " ++ fromLang.toStr ++ " -> " ++ toLang.toStr) := by
  unfold createCompilerService
  rw [if_neg]
  intro hmem
  simp only [supportedPairs, List.mem_cons, List.mem_singleton, Prod.mk.injEq,
    List.not_mem_nil, or_false] at hmem
  rcases hmem with h1 | h1 | h1 <;> exact h h1.2

theorem mem_truthyEntries_truthy {items : List (String × CompileItem)}
    {p : String × ContentV} (hp : p ∈ truthyEntries items) :
    p.2.truthy = true := by
  unfold truthyEntries at hp
  rw [List.mem_filterMap] at hp
  obtain ⟨q, _, heq⟩ := hp
  cases hc : q.2.content with
  | none => rw [hc] at heq; simp at heq
  | some c =>
    rw [hc] at heq
    cases ht : c.truthy with
    | false => rw [Option.bind_eq_some] at heq; simp [ht] at heq
    | true =>
      rw [Option.bind_eq_some] at heq
      obtain ⟨a, ha, hif⟩ := heq
      cases ha
      rw [ht] at hif
      simp at hif
      rw [← hif]
      exact ht

theorem lookupName_mem {m : List (String × ContentV)} {k : String}
    {v : ContentV} (h : lookupName m k = some v) : (k, v) ∈ m := by
  induction m with
  | nil => simp [lookupName] at h
  | cons p rest ih =>
    rw [lookupName] at h
    by_cases hk : p.1 = k
    · rw [if_pos hk] at h
      cases h
      subst hk
      simp
    · rw [if_neg hk] at h
      exact List.mem_cons_of_mem _ (ih h)

theorem getGlobal_setGlobal (g : GlobalState) (n : String) (v : Nat) :
    getGlobal (setGlobal g n v) n = some v := by
  simp [getGlobal, setGlobal, getGlobal.lookupGlobals]

theorem lazyLoad_libwabt (env : LoadEnv) (g : GlobalState) :
    lazyLoad env "lib/libwabt.js" g =
      (Except.ok (setGlobal g "wabt"
        (((env.evalCode (env.fetchText (baseUrl ++ "lib/libwabt.js"))).get? 0).getD 0)),
       ⟨1, 1⟩) := rfl

theorem lazyLoad_showdown (env : LoadEnv) (g : GlobalState) :
    lazyLoad env "lib/showdown.min.js" g =
      (Except.ok (setGlobal g "showdown"
        (((env.evalCode (env.fetchText (baseUrl ++ "lib/showdown.min.js"))).get? 0).getD 0)),
       ⟨1, 1⟩) := rfl

theorem lazyLoad_binaryen (env : LoadEnv) (g : GlobalState) :
    lazyLoad env "lib/binaryen.js" g =
      (Except.ok (setGlobal g "Binaryen"
        (((env.evalCode (env.fetchText (baseUrl ++ "lib/binaryen.js"))).get? 0).getD 0)),
       ⟨1, 1⟩) := rfl

theorem updateFile_append_singleton (l : List TreeFile) (x : TreeFile)
    (f : TreeFile → TreeFile) :
    updateFile (l ++ [x]) l.length f = l ++ [f x] := by
  induction l with
  | nil => rfl
  | cons a as ih => simp [updateFile, ih]

/-! ### Claim theorems -/

/-- C1: for every compile request where the backend's `CompileResult` has
`success = false`, the compile operation — `compileFiles`, and hence
`compileFile` and `compileFileWithBindings` for the wasm target — fails
with an error whose message is exactly the backend's console text, and does
not return a value. -/
theorem compile_backend_failure_throws_console_text
    (backend : CompileInput → CompileResult) (files : List SrcFile)
    (file : SrcFile) (fromLang toLang : Language) (options : String)
    (hsvc : createCompilerService fromLang toLang = Except.ok ())
    (hsvcW : createCompilerService fromLang Language.Wasm = Except.ok ())
    (hfail : (backend (mkCompileInput files options)).success = false)
    (hfail1 : (backend (mkCompileInput [file] options)).success = false) :
    (compileFiles backend files fromLang toLang options).1 =
      Except.error (backend (mkCompileInput files options)).console ∧
    (compileFileWithBindings backend file fromLang Language.Wasm options).1 =
      Except.error (backend (mkCompileInput [file] options)).console ∧
    (compileFile backend file fromLang Language.Wasm options).1 =
      Except.error (backend (mkCompileInput [file] options)).console := by
  have h1 := compileFiles_failure_eq backend files fromLang toLang options hsvc hfail
  have h2 := compileFiles_failure_eq backend [file] fromLang Language.Wasm options hsvcW hfail1
  refine ⟨by rw [h1], ?_, ?_⟩
  · unfold compileFileWithBindings
    rw [h2]
    simp
  · unfold compileFile compileFileWithBindings
    rw [h2]
    simp

/-- Witness for C1 at a concrete failing backend. -/
theorem compile_backend_failure_witness :
    (compileFiles (fun _ => ⟨false, "compile error", []⟩) []
      Language.Rust Language.Wasm "").1 = Except.error "compile error" ∧
    (compileFileWithBindings (fun _ => ⟨false, "compile error", []⟩)
      ⟨"src/main.rs", ContentV.str "fn main()"⟩
      Language.Rust Language.Wasm "").1 = Except.error "compile error" ∧
    (compileFile (fun _ => ⟨false, "compile error", []⟩)
      ⟨"src/main.rs", ContentV.str "fn main()"⟩
      Language.Rust Language.Wasm "").1 = Except.error "compile error" :=
  compile_backend_failure_throws_console_text
    (fun _ => ⟨false, "compile error", []⟩) []
    ⟨"src/main.rs", ContentV.str "fn main()"⟩
    Language.Rust Language.Wasm "" rfl rfl rfl rfl

/-- C2: for every compile call whose target language is not wasm, the call
fails with no network interaction performed (zero network calls), for every
compile entry point: `compileFiles` fails in the (spec-modelled) compiler
service resolution for the unsupported pair, and `compileFileWithBindings`
and `compileFile` fail with the unsupported-target message before calling
anything. -/
theorem compile_non_wasm_target_rejected_without_network
    (backend : CompileInput → CompileResult) (files : List SrcFile)
    (file : SrcFile) (fromLang toLang : Language) (options : String)
    (h : toLang ≠ Language.Wasm) :
    compileFiles backend files fromLang toLang options =
      (Except.error
        ("Invalid language pair " ++ fromLang.toStr ++ " -> " ++ toLang.toStr), 0) ∧
    compileFileWithBindings backend file fromLang toLang options =
      (Except.error
        ("Only wasm target is supported, but \"" ++ toLang.toStr ++ "\" was found"), 0) ∧
    compileFile backend file fromLang toLang options =
      (Except.error
        ("Only wasm target is supported, but \"" ++ toLang.toStr ++ "\" was found"), 0) := by
  have hsvc := createCompilerService_not_wasm fromLang toLang h
  refine ⟨?_, ?_, ?_⟩
  · unfold compileFiles
    rw [hsvc]
  · unfold compileFileWithBindings
    rw [if_pos h]
  · unfold compileFile compileFileWithBindings
    rw [if_pos h]

/-- Witness for C2 at a concrete non-wasm target. -/
theorem compile_non_wasm_target_witness :
    compileFiles (fun _ => ⟨true, "", []⟩) [] Language.C Language.X86 "" =
      (Except.error "Invalid language pair c -> x86", 0) ∧
    compileFileWithBindings (fun _ => ⟨true, "", []⟩)
      ⟨"main.c", ContentV.str "int main()"⟩ Language.C Language.X86 "" =
      (Except.error "Only wasm target is supported, but \"x86\" was found", 0) ∧
    compileFile (fun _ => ⟨true, "", []⟩)
      ⟨"main.c", ContentV.str "int main()"⟩ Language.C Language.X86 "" =
      (Except.error "Only wasm target is supported, but \"x86\" was found", 0) :=
  compile_non_wasm_target_rejected_without_network
    (fun _ => ⟨true, "", []⟩) [] ⟨"main.c", ContentV.str "int main()"⟩
    Language.C Language.X86 "" (by decide)

/-- C3 counterexample: a successful result whose single item has a present
but empty-string content is dropped by `compileFiles`, so the returned
mapping is not "exactly the entries whose content is present". -/
theorem compileFiles_drops_empty_string_content :
    (compileFiles (fun _ => ⟨true, "", [("x", ⟨some (ContentV.str "")⟩)]⟩)
      [] Language.Rust Language.Wasm "").1 =
      Except.ok ([] : List (String × ContentV)) ∧
    presentEntries [("x", ⟨some (ContentV.str "")⟩)] = [("x", ContentV.str "")] ∧
    ([] : List (String × ContentV)) ≠ [("x", ContentV.str "")] :=
  ⟨rfl, rfl, by decide⟩

/-- C3 amended: on a successful backend result, `compileFiles` returns
exactly those entries of `items` whose content is present and truthy — a
present but empty-string content is dropped along with absent content, and
no other entry is dropped; every kept name maps to its content unchanged. -/
theorem compileFiles_success_returns_truthy_entries
    (backend : CompileInput → CompileResult) (files : List SrcFile)
    (fromLang toLang : Language) (options : String)
    (hsvc : createCompilerService fromLang toLang = Except.ok ())
    (hok : (backend (mkCompileInput files options)).success = true) :
    (compileFiles backend files fromLang toLang options).1 =
      Except.ok (truthyEntries (backend (mkCompileInput files options)).items) := by
  rw [compileFiles_success_eq backend files fromLang toLang options hsvc hok]

/-- Witness for the amended C3 at a concrete successful backend. -/
theorem compileFiles_success_truthy_witness :
    (compileFiles
      (fun _ => ⟨true, "ok",
        [("a.wasm", ⟨some (ContentV.buf [0, 97, 115, 109])⟩),
         ("empty.txt", ⟨some (ContentV.str "")⟩),
         ("none.txt", ⟨none⟩)]⟩)
      [] Language.Rust Language.Wasm "").1 =
      Except.ok (truthyEntries
        [("a.wasm", ⟨some (ContentV.buf [0, 97, 115, 109])⟩),
         ("empty.txt", ⟨some (ContentV.str "")⟩),
         ("none.txt", ⟨none⟩)]) :=
  compileFiles_success_returns_truthy_entries
    (fun _ => ⟨true, "ok",
      [("a.wasm", ⟨some (ContentV.buf [0, 97, 115, 109])⟩),
       ("empty.txt", ⟨some (ContentV.str "")⟩),
       ("none.txt", ⟨none⟩)]⟩)
    [] Language.Rust Language.Wasm "" rfl rfl

/-- C4: for every successful compile, `compileFileWithBindings` resolves the
artifacts from the output mapping `m`: it returns (never errors, even when
the primary is absent) the content under the fixed name `a.wasm` as the
primary, the content under the fixed name `wasm_bindgen.js` — exactly when
that entry is present — as the companion, and its result depends on no
other entry of the mapping. -/
theorem compileFileWithBindings_resolves_fixed_artifacts
    (backend : CompileInput → CompileResult) (file : SrcFile)
    (fromLang : Language) (options : String)
    (m : List (String × ContentV))
    (hsvc : createCompilerService fromLang Language.Wasm = Except.ok ())
    (hok : (backend (mkCompileInput [file] options)).success = true)
    (hm : m = truthyEntries (backend (mkCompileInput [file] options)).items) :
    (compileFileWithBindings backend file fromLang Language.Wasm options).1 =
      Except.ok (resolveBindings m) ∧
    (resolveBindings m).wasm = lookupName m expectedOutputFilename ∧
    (resolveBindings m).wasmBindgenJs = lookupName m expectedWasmBindgenJsFilename ∧
    (∀ m' : List (String × ContentV),
      lookupName m' expectedOutputFilename = lookupName m expectedOutputFilename →
      lookupName m' expectedWasmBindgenJsFilename =
        lookupName m expectedWasmBindgenJsFilename →
      resolveBindings m' = resolveBindings m) := by
  refine ⟨?_, rfl, ?_, ?_⟩
  · unfold compileFileWithBindings
    rw [compileFiles_success_eq backend [file] fromLang Language.Wasm options hsvc hok]
    simp [hm]
  · unfold resolveBindings
    cases hl : lookupName m expectedWasmBindgenJsFilename with
    | none => rfl
    | some c =>
      have hmem := lookupName_mem hl
      rw [hm] at hmem
      have ht : c.truthy = true :=
        mem_truthyEntries_truthy (p := (expectedWasmBindgenJsFilename, c)) hmem
      simp [ht]
  · intro m' h1 h2
    unfold resolveBindings
    rw [h1, h2]

/-- Witness for C4 at a concrete successful backend producing both the
primary and the companion artifact. -/
theorem compileFileWithBindings_witness :
    (compileFileWithBindings
      (fun _ => ⟨true, "",
        [("a.wasm", ⟨some (ContentV.buf [0, 97])⟩),
         ("wasm_bindgen.js", ⟨some (ContentV.str "export 1")⟩)]⟩)
      ⟨"src/main.rs", ContentV.str "fn main()"⟩
      Language.Rust Language.Wasm "").1 =
      Except.ok (resolveBindings
        (truthyEntries
          [("a.wasm", ⟨some (ContentV.buf [0, 97])⟩),
           ("wasm_bindgen.js", ⟨some (ContentV.str "export 1")⟩)])) ∧
    (resolveBindings
      (truthyEntries
        [("a.wasm", ⟨some (ContentV.buf [0, 97])⟩),
         ("wasm_bindgen.js", ⟨some (ContentV.str "export 1")⟩)])).wasm =
      lookupName
        (truthyEntries
          [("a.wasm", ⟨some (ContentV.buf [0, 97])⟩),
           ("wasm_bindgen.js", ⟨some (ContentV.str "export 1")⟩)])
        expectedOutputFilename :=
  ⟨(compileFileWithBindings_resolves_fixed_artifacts
      (fun _ => ⟨true, "",
        [("a.wasm", ⟨some (ContentV.buf [0, 97])⟩),
         ("wasm_bindgen.js", ⟨some (ContentV.str "export 1")⟩)]⟩)
      ⟨"src/main.rs", ContentV.str "fn main()"⟩
      Language.Rust "" _ rfl rfl rfl).1,
   (compileFileWithBindings_resolves_fixed_artifacts
      (fun _ => ⟨true, "",
        [("a.wasm", ⟨some (ContentV.buf [0, 97])⟩),
         ("wasm_bindgen.js", ⟨some (ContentV.str "export 1")⟩)]⟩)
      ⟨"src/main.rs", ContentV.str "fn main()"⟩
      Language.Rust "" _ rfl rfl rfl).2.1⟩

/-- The content the claim C5 predicts for a file node: the inline data
value whenever `data` is present and not the literal null, the empty string
when it is null, and the fetched text otherwise. -/
def claimFileContent (fetchText : String → String) (data : JsonData)
    (path : String) : String :=
  match data with
  | .str s => s
  | .nullv => ""
  | .absent => fetchText path

/-- The content the deserializer actually stores in a file node: the inline
data value when present, not null and nonempty; the empty string when data
is the literal null; and the fetched text when data is absent or the empty
string. -/
def amendedFileContent (fetchText : String → String) (data : JsonData)
    (path : String) : String :=
  match data with
  | .str s => if s.isEmpty then fetchText path else s
  | .nullv => ""
  | .absent => fetchText path

/-- C5 counterexample: a childless node whose `data` is present but the
empty string is not given its inline value — the deserializer fetches
instead, because the source guards with JavaScript truthiness
(`if (json.data)`), not presence. -/
theorem deserialize_empty_data_not_inline :
    deserialize (fun _ => "FETCHED")
      (IFile.mk "a.txt" none none (JsonData.str "") none) "templates/p" =
      PNode.file "a.txt" none none "FETCHED" ∧
    claimFileContent (fun _ => "FETCHED") (JsonData.str "")
      ("templates/p" ++ "/" ++ "a.txt") = "" ∧
    ("FETCHED" : String) ≠ "" :=
  ⟨rfl, rfl, by decide⟩

/-- C5 amended: a childless node becomes a file carrying its type tag and
description, whose content is the inline data when present, non-null and
nonempty; the empty string when data is the literal null; and the text
fetched from the base path plus the node's name when data is absent or the
empty string.  Null and absent data still behave differently. -/
theorem deserialize_file_node_content (fetchText : String → String)
    (name : String) (ftype : Option String) (data : JsonData)
    (descr : Option String) (basePath : String) :
    deserialize fetchText (IFile.mk name none ftype data descr) basePath =
      PNode.file name ftype descr
        (amendedFileContent fetchText data (basePath ++ "/" ++ name)) := by
  cases data with
  | str s =>
    rw [deserialize, amendedFileContent]
    cases hs : s.isEmpty <;> simp [hs]
  | nullv => rfl
  | absent => rfl

/-- C6: sibling deserialization preserves input order — the result list has
the same length as the input array and its i-th element is the
deserialization of the i-th input node (the `Promise.all` fan-out
reassembles by original index); consequently a directory's children and the
project's top-level files appear in exactly the input array's order. -/
theorem deserializeList_preserves_order (fetchText : String → String)
    (nodes : List IFile) (basePath : String) (name : String)
    (ftype : Option String) (data : JsonData) (descr : Option String)
    (json : ProjectJson) (project : Project) :
    (deserializeList fetchText nodes basePath).length = nodes.length ∧
    (∀ i, (deserializeList fetchText nodes basePath).get? i =
      (nodes.get? i).map (fun n => deserialize fetchText n basePath)) ∧
    deserialize fetchText (IFile.mk name (some nodes) ftype data descr) basePath =
      PNode.dir name (deserializeList fetchText nodes (basePath ++ "/" ++ name)) ∧
    (loadProject fetchText json project).files =
      project.files ++
        deserializeList fetchText json.children ("templates/" ++ json.directory) := by
  refine ⟨?_, ?_, rfl, rfl⟩
  · induction nodes with
    | nil => rfl
    | cons x xs ih => simp [deserializeList, ih]
  · intro i
    induction nodes generalizing i with
    | nil => simp [deserializeList]
    | cons x xs ih =>
      cases i with
      | zero => rfl
      | succ n => simpa [deserializeList] using ih n

/-- C7: `lazyLoad` on a uri that is none of the three known capability ids
fails with the configuration error `"Unknow lazyLoad uri: ..."` and
performs zero fetches and zero evaluations. -/
theorem lazyLoad_unknown_uri_fails_before_fetch (env : LoadEnv)
    (g : GlobalState) (uri : String)
    (h1 : uri ≠ "lib/libwabt.js") (h2 : uri ≠ "lib/showdown.min.js")
    (h3 : uri ≠ "lib/binaryen.js") :
    lazyLoad env uri g =
      (Except.error ("Unknow lazyLoad uri: " ++ uri), ⟨0, 0⟩) := by
  unfold lazyLoad lazyLoadExports
  simp [h1, h2, h3]

/-- Witness for C7 at a concrete unknown uri. -/
theorem lazyLoad_unknown_uri_witness :
    lazyLoad ⟨fun _ => "", fun _ => []⟩ "lib/unknown.js" ⟨[]⟩ =
      (Except.error "Unknow lazyLoad uri: lib/unknown.js", ⟨0, 0⟩) :=
  lazyLoad_unknown_uri_fails_before_fetch ⟨fun _ => "", fun _ => []⟩ ⟨[]⟩
    "lib/unknown.js" (by decide) (by decide) (by decide)

/-- C8: ensuring a capability is idempotent.  When an operation's engine
binding is already present in the shared namespace, the operation performs
zero fetches and zero evaluations for it; and a successful run from any
state leaves the binding present, so in sequential use a second run
performs zero fetches and evaluations — each engine is loaded at most once
per process. -/
theorem capability_load_idempotent (env : LoadEnv) (eng : Engines)
    (g : GlobalState) (buffer buffer2 : ContentV) (wat src src2 : String)
    (parent : List TreeFile) (i : Nat) :
    ((getGlobal g "wabt").isSome = true →
      (disassembleWasm env eng g buffer).2 = ⟨0, 0⟩ ∧
      (assembleWat env eng g wat).2 = ⟨0, 0⟩) ∧
    ((getGlobal g "Binaryen").isSome = true →
      (disassembleWasmWithBinaryen env eng g parent i).2 = ⟨0, 0⟩ ∧
      (convertWasmToAsmWithBinaryen env eng g parent i).2 = ⟨0, 0⟩) ∧
    ((getGlobal g "showdown").isSome = true →
      (compileMarkdownToHtml env eng g src).2 = ⟨0, 0⟩) ∧
    (∀ g' t s, disassembleWasm env eng g buffer = (Except.ok (g', t), s) →
      (disassembleWasm env eng g' buffer2).2 = ⟨0, 0⟩) ∧
    (∀ g' t s, compileMarkdownToHtml env eng g src = (Except.ok (g', t), s) →
      (compileMarkdownToHtml env eng g' src2).2 = ⟨0, 0⟩) ∧
    (∀ g' t s, convertWasmToAsmWithBinaryen env eng g parent i =
        (Except.ok (g', t), s) →
      (convertWasmToAsmWithBinaryen env eng g' parent i).2 = ⟨0, 0⟩) := by
  refine ⟨?_, ?_, ?_, ?_, ?_, ?_⟩
  · intro h
    constructor
    · rw [disassembleWasm, if_pos h]
    · rw [assembleWat, if_pos h]
      cases eng.wabtAssemble ((getGlobal g "wabt").getD 0) wat <;> rfl
  · intro h
    constructor
    · rw [disassembleWasmWithBinaryen, if_pos h]
    · rw [convertWasmToAsmWithBinaryen, if_pos h]
  · intro h
    rw [compileMarkdownToHtml, if_pos h]
  · intro g' t s hrun
    by_cases h : (getGlobal g "wabt").isSome
    · rw [disassembleWasm, if_pos h] at hrun
      cases hrun
      rw [disassembleWasm, if_pos h]
    · rw [disassembleWasm, if_neg h, lazyLoad_libwabt] at hrun
      cases hrun
      rw [disassembleWasm, if_pos (by rw [getGlobal_setGlobal]; rfl)]
  · intro g' t s hrun
    by_cases h : (getGlobal g "showdown").isSome
    · rw [compileMarkdownToHtml, if_pos h] at hrun
      cases hrun
      rw [compileMarkdownToHtml, if_pos h]
    · rw [compileMarkdownToHtml, if_neg h, lazyLoad_showdown] at hrun
      cases hrun
      rw [compileMarkdownToHtml, if_pos (by rw [getGlobal_setGlobal]; rfl)]
  · intro g' t s hrun
    by_cases h : (getGlobal g "Binaryen").isSome
    · rw [convertWasmToAsmWithBinaryen, if_pos h] at hrun
      simp only [Prod.mk.injEq, Except.ok.injEq] at hrun
      obtain ⟨⟨hg, _⟩, _⟩ := hrun
      rw [convertWasmToAsmWithBinaryen, if_pos (by rw [← hg]; exact h)]
    · rw [convertWasmToAsmWithBinaryen, if_neg h, lazyLoad_binaryen] at hrun
      simp only [Prod.mk.injEq, Except.ok.injEq] at hrun
      obtain ⟨⟨hg, _⟩, _⟩ := hrun
      rw [convertWasmToAsmWithBinaryen,
        if_pos (by rw [← hg, getGlobal_setGlobal]; rfl)]

/-- A concrete load environment for witnesses. -/
def envZero : LoadEnv := ⟨fun _ => "", fun _ => [7]⟩

/-- Concrete engine transforms for witnesses. -/
def engZero : Engines :=
  ⟨fun _ _ => "", fun _ _ => Except.ok (ContentV.buf []), fun _ _ => "",
   fun _ _ => "", fun _ _ => ""⟩

/-- A concrete shared namespace in which all three engines are loaded. -/
def gLoaded : GlobalState := ⟨[("wabt", 1), ("Binaryen", 2), ("showdown", 3)]⟩

/-- Witness for C8 at a concrete state with every engine already loaded. -/
theorem capability_load_idempotent_witness :
    (disassembleWasm envZero engZero gLoaded (ContentV.buf [])).2 = ⟨0, 0⟩ ∧
    (convertWasmToAsmWithBinaryen envZero engZero gLoaded [] 0).2 = ⟨0, 0⟩ ∧
    (compileMarkdownToHtml envZero engZero gLoaded "# title").2 = ⟨0, 0⟩ := by
  have h := capability_load_idempotent envZero engZero gLoaded
    (ContentV.buf []) (ContentV.buf []) "" "# title" "# title" [] 0
  exact ⟨(h.1 rfl).1, (h.2.1 rfl).2, h.2.2.1 rfl⟩

theorem get?_append_left {α : Type} (l l' : List α) (i : Nat)
    (h : i < l.length) : (l ++ l').get? i = l.get? i := by
  induction l generalizing i with
  | nil => simp at h
  | cons a as ih =>
    cases i with
    | zero => rfl
    | succ n =>
      exact ih n (Nat.lt_of_succ_lt_succ (by simpa using h))

theorem take_length_append {α : Type} (l l' : List α) :
    (l ++ l').take l.length = l := by
  induction l with
  | nil => rfl
  | cons a as ih => simp [ih]

/-- C9: converting a binary module to asm.js does not mutate the source
artifact's stored content: the operation only appends one new sibling
artifact — named after the source plus the `.asm.js` suffix — and writes
the converted text into that new artifact; every existing file of the
parent directory, the source included, is left exactly as it was. -/
theorem convertWasm_preserves_source_artifact (env : LoadEnv) (eng : Engines)
    (g : GlobalState) (parent : List TreeFile) (i : Nat)
    (h : i < parent.length) :
    ∃ g' s result,
      convertWasmToAsmWithBinaryen env eng g parent i =
        (Except.ok (g', parent ++
          [{ name := (parent.getD i default).name ++ ".asm.js",
             ftype := FileType.JavaScript,
             description :=
               "Converted from " ++ (parent.getD i default).name ++ " using Binaryen.",
             data := ContentV.str result }]), s) ∧
      ∀ art : TreeFile,
        (parent ++ [art]).get? i = parent.get? i ∧
        (parent ++ [art]).take parent.length = parent := by
  have hframe : ∀ art : TreeFile,
      (parent ++ [art]).get? i = parent.get? i ∧
      (parent ++ [art]).take parent.length = parent :=
    fun art => ⟨get?_append_left parent [art] i h, take_length_append parent [art]⟩
  by_cases hb : (getGlobal g "Binaryen").isSome
  · refine ⟨g, ⟨0, 0⟩,
      eng.binaryenEmitAsmjs ((getGlobal g "Binaryen").getD 0)
        (parent.getD i default).data, ?_, hframe⟩
    rw [convertWasmToAsmWithBinaryen, if_pos hb]
    show (Except.ok (g, updateFile (updateFile (parent ++ [_]) parent.length _)
      parent.length _), (⟨0, 0⟩ : Stats)) = _
    rw [updateFile_append_singleton, updateFile_append_singleton]
  · refine ⟨setGlobal g "Binaryen"
      (((env.evalCode (env.fetchText (baseUrl ++ "lib/binaryen.js"))).get? 0).getD 0),
      ⟨1, 1⟩,
      eng.binaryenEmitAsmjs
        ((getGlobal (setGlobal g "Binaryen"
          (((env.evalCode (env.fetchText (baseUrl ++ "lib/binaryen.js"))).get? 0).getD 0))
          "Binaryen").getD 0)
        (parent.getD i default).data, ?_, hframe⟩
    rw [convertWasmToAsmWithBinaryen, if_neg hb, lazyLoad_binaryen]
    show (Except.ok (_, updateFile (updateFile (parent ++ [_]) parent.length _)
      parent.length _), (⟨1, 1⟩ : Stats)) = _
    rw [updateFile_append_singleton, updateFile_append_singleton]

/-- A concrete one-file parent directory for the C9 witness. -/
def parentZero : List TreeFile :=
  [⟨"main.wasm", FileType.Wasm, "", ContentV.buf [0, 97]⟩]

/-- Witness for C9 at a concrete one-file directory. -/
theorem convertWasm_preserves_source_witness :
    ∃ g' s result,
      convertWasmToAsmWithBinaryen envZero engZero gLoaded parentZero 0 =
        (Except.ok (g', parentZero ++
          [{ name := (parentZero.getD 0 default).name ++ ".asm.js",
             ftype := FileType.JavaScript,
             description := "Converted from " ++
               (parentZero.getD 0 default).name ++ " using Binaryen.",
             data := ContentV.str result }]), s) ∧
      ∀ art : TreeFile,
        (parentZero ++ [art]).get? 0 = parentZero.get? 0 ∧
        (parentZero ++ [art]).take parentZero.length = parentZero :=
  convertWasm_preserves_source_artifact envZero engZero gLoaded
    parentZero 0 (by decide)

/-- C10: a childless node whose `data` field is present but equal to the
empty string is not given inline content and no empty file is created from
it: the deserializer fetches the file's content from the base path plus the
node's name, exactly as for absent data. -/
theorem deserialize_empty_string_data_fetches (fetchText : String → String)
    (name : String) (ftype : Option String) (descr : Option String)
    (basePath : String) :
    deserialize fetchText (IFile.mk name none ftype (JsonData.str "") descr)
        basePath =
      PNode.file name ftype descr (fetchText (basePath ++ "/" ++ name)) ∧
    deserialize fetchText (IFile.mk name none ftype JsonData.absent descr)
        basePath =
      PNode.file name ftype descr (fetchText (basePath ++ "/" ++ name)) := by
  exact ⟨rfl, rfl⟩

end WasmStudio
